import Mathlib

/-!
Shallow embedding of the Tetris core from `src/tetris/gametypes.py`
(classes `Game`, `Board`, `TetrominoType`, `Tetromino`, `Input`), together
with theorems checking the natural-language specification against it.

Modelling conventions:
* Grid coordinates are `Int × Int` pairs `(column, row)`, row 0 at the bottom.
* The Python random choice of a tetromino type is externalized: every
  operation that creates a fresh tetromino takes the chosen `Kind` as an
  explicit argument.
* The pyglet clock is externalized: `Game.update` takes a `tickDue : Bool`
  argument standing for `self.ticker.isTick(self.tickSpeed)`, and the
  buffered input is passed as an `Option Input` standing for
  `self.input.consume()`.
* The Python object aliasing in `Board.updateTick` (the committed falling
  tetromino is the same object that row clearing mutates in place, and the
  `fallingTetromino` field keeps pointing at it) is made explicit by
  recomputing the cleared falling piece with the same per-piece fold.
* The Python dict `rowCounts` in `findFullRows`, pre-initialized for keys
  `0 .. gridHeight + 4 - 1`, is modelled twice: `findFullRows` is the total
  function (defined when no `KeyError` can occur), and `findFullRowsD`
  models the dict faithfully as a partial map `Int → Option Nat`, returning
  `none` exactly when the increment `rowCounts[coord[1]] += 1` would raise
  a `KeyError`.
-/

namespace Tetris

/-- Orientations `RIGHT, DOWN, LEFT, UP = range(4)` of `Tetromino`. -/
inductive Orientation where
  | RIGHT
  | DOWN
  | LEFT
  | UP
deriving DecidableEq, Repr

/-- The table `Tetromino.CLOCKWISE_ROTATIONS = {RIGHT: DOWN, DOWN: LEFT, LEFT: UP, UP: RIGHT}`. -/
def clockwiseRotation : Orientation → Orientation
  | .RIGHT => .DOWN
  | .DOWN => .LEFT
  | .LEFT => .UP
  | .UP => .RIGHT

/-- The seven entries of `TetrominoType.TYPES`, identified by their comment
in the source (the block image is presentation-only and omitted). -/
inductive Kind where
  | line
  | square
  | lshape
  | reverseLshape
  | zshape
  | sshape
  | tshape
deriving DecidableEq, Repr

/-- The `localBlockCoordsByOrientation` tables of `TetrominoType.TYPES`,
transcribed verbatim from `TetrominoType.classInit`. -/
def localBlockCoords : Kind → Orientation → List (Int × Int)
  | .line, .RIGHT => [(0, 1), (1, 1), (2, 1), (3, 1)]
  | .line, .DOWN => [(1, 0), (1, 1), (1, 2), (1, 3)]
  | .line, .LEFT => [(0, 2), (1, 2), (2, 2), (3, 2)]
  | .line, .UP => [(2, 0), (2, 1), (2, 2), (2, 3)]
  | .square, .RIGHT => [(0, 0), (0, 1), (1, 0), (1, 1)]
  | .square, .DOWN => [(0, 0), (0, 1), (1, 0), (1, 1)]
  | .square, .LEFT => [(0, 0), (0, 1), (1, 0), (1, 1)]
  | .square, .UP => [(0, 0), (0, 1), (1, 0), (1, 1)]
  | .lshape, .RIGHT => [(0, 1), (1, 1), (2, 1), (2, 2)]
  | .lshape, .DOWN => [(1, 2), (1, 1), (1, 0), (2, 0)]
  | .lshape, .LEFT => [(0, 0), (0, 1), (1, 1), (2, 1)]
  | .lshape, .UP => [(0, 2), (1, 2), (1, 1), (1, 0)]
  | .reverseLshape, .RIGHT => [(0, 2), (0, 1), (1, 1), (2, 1)]
  | .reverseLshape, .DOWN => [(2, 2), (1, 2), (1, 1), (1, 0)]
  | .reverseLshape, .LEFT => [(0, 1), (1, 1), (2, 1), (2, 0)]
  | .reverseLshape, .UP => [(0, 0), (1, 0), (1, 1), (1, 2)]
  | .zshape, .RIGHT => [(0, 2), (1, 2), (1, 1), (2, 1)]
  | .zshape, .DOWN => [(2, 2), (2, 1), (1, 1), (1, 0)]
  | .zshape, .LEFT => [(0, 1), (1, 1), (1, 0), (2, 0)]
  | .zshape, .UP => [(0, 0), (0, 1), (1, 1), (1, 2)]
  | .sshape, .RIGHT => [(0, 1), (1, 1), (1, 2), (2, 2)]
  | .sshape, .DOWN => [(1, 2), (1, 1), (2, 1), (2, 0)]
  | .sshape, .LEFT => [(0, 0), (1, 0), (1, 1), (2, 1)]
  | .sshape, .UP => [(0, 2), (0, 1), (1, 1), (1, 0)]
  | .tshape, .RIGHT => [(0, 1), (1, 1), (1, 2), (2, 1)]
  | .tshape, .DOWN => [(1, 2), (1, 1), (1, 0), (2, 1)]
  | .tshape, .LEFT => [(0, 1), (1, 1), (1, 0), (2, 1)]
  | .tshape, .UP => [(0, 1), (1, 0), (1, 1), (1, 2)]

/-- Commands `Input.TOGGLE_PAUSE, MOVE_DOWN, MOVE_LEFT, MOVE_RIGHT, ROTATE_CLOCKWISE = range(5)`. -/
inductive Input where
  | TOGGLE_PAUSE
  | MOVE_DOWN
  | MOVE_LEFT
  | MOVE_RIGHT
  | ROTATE_CLOCKWISE
deriving DecidableEq, Repr

/-- Class `Tetromino`: anchor `(x, y)`, type, orientation, and the cached
`blockBoardCoords` list (a stored field in the source, recomputed by the
movement operations but edited in place by `clearRow`). -/
structure Tetromino where
  x : Int
  y : Int
  tetrominoType : Kind
  orientation : Orientation
  blockBoardCoords : List (Int × Int)
deriving DecidableEq, Repr

/-- Python `Tetromino.calcBlockBoardCoords`: the local coords for the current
orientation, each translated by the anchor. -/
def Tetromino.calcBlockBoardCoords (t : Tetromino) : List (Int × Int) :=
  (localBlockCoords t.tetrominoType t.orientation).map fun c => (c.1 + t.x, c.2 + t.y)

/-- Python `Tetromino.__init__` with the random type choice externalized:
anchor `(0, 0)`, orientation `RIGHT`, cached coords computed. -/
def Tetromino.new (k : Kind) : Tetromino :=
  let t : Tetromino :=
    { x := 0, y := 0, tetrominoType := k, orientation := .RIGHT, blockBoardCoords := [] }
  { t with blockBoardCoords := t.calcBlockBoardCoords }

/-- Python `Tetromino.setPosition`. -/
def Tetromino.setPosition (t : Tetromino) (x y : Int) : Tetromino :=
  let t' := { t with x := x, y := y }
  { t' with blockBoardCoords := t'.calcBlockBoardCoords }

/-- Python `Tetromino.moveDown`. -/
def Tetromino.moveDown (t : Tetromino) : Tetromino :=
  let t' := { t with y := t.y - 1 }
  { t' with blockBoardCoords := t'.calcBlockBoardCoords }

/-- Python `Tetromino.moveUp`. -/
def Tetromino.moveUp (t : Tetromino) : Tetromino :=
  let t' := { t with y := t.y + 1 }
  { t' with blockBoardCoords := t'.calcBlockBoardCoords }

/-- Python `Tetromino.moveLeft`. -/
def Tetromino.moveLeft (t : Tetromino) : Tetromino :=
  let t' := { t with x := t.x - 1 }
  { t' with blockBoardCoords := t'.calcBlockBoardCoords }

/-- Python `Tetromino.moveRight`. -/
def Tetromino.moveRight (t : Tetromino) : Tetromino :=
  let t' := { t with x := t.x + 1 }
  { t' with blockBoardCoords := t'.calcBlockBoardCoords }

/-- Python `Tetromino.rotateClockwise`. -/
def Tetromino.rotateClockwise (t : Tetromino) : Tetromino :=
  let t' := { t with orientation := clockwiseRotation t.orientation }
  { t' with blockBoardCoords := t'.calcBlockBoardCoords }

/-- Python `Tetromino.rotateCounterclockwise`: three clockwise steps of the
4-cycle (the source comment: rotating right 3 times same as rotating left
once), then one recomputation of the cached coords. -/
def Tetromino.rotateCounterclockwise (t : Tetromino) : Tetromino :=
  let t' :=
    { t with
      orientation := clockwiseRotation (clockwiseRotation (clockwiseRotation t.orientation)) }
  { t' with blockBoardCoords := t'.calcBlockBoardCoords }

/-- Python `Tetromino.command`: dispatch over the if/elif chain of the source; a
command matching none of the four cases (only `TOGGLE_PAUSE`) falls
through and leaves the tetromino untouched. -/
def Tetromino.command (t : Tetromino) (c : Input) : Tetromino :=
  match c with
  | .MOVE_DOWN => t.moveDown
  | .MOVE_RIGHT => t.moveRight
  | .MOVE_LEFT => t.moveLeft
  | .ROTATE_CLOCKWISE => t.rotateClockwise
  | .TOGGLE_PAUSE => t

/-- Python `Tetromino.undoCommand`: the opposite action of `command`. -/
def Tetromino.undoCommand (t : Tetromino) (c : Input) : Tetromino :=
  match c with
  | .MOVE_DOWN => t.moveUp
  | .MOVE_RIGHT => t.moveLeft
  | .MOVE_LEFT => t.moveRight
  | .ROTATE_CLOCKWISE => t.rotateCounterclockwise
  | .TOGGLE_PAUSE => t

/-- The loop body of `Tetromino.clearRow`: blocks above `boardGridRow` are
shifted down one spot, blocks below it are kept, blocks on it are dropped,
in source order. -/
def clearRowCoords (boardGridRow : Int) : List (Int × Int) → List (Int × Int)
  | [] => []
  | c :: rest =>
    if c.2 > boardGridRow then (c.1, c.2 - 1) :: clearRowCoords boardGridRow rest
    else if c.2 < boardGridRow then c :: clearRowCoords boardGridRow rest
    else clearRowCoords boardGridRow rest

/-- Python `Tetromino.clearRow` (the mutation part; the `len(...) > 0` return
value is recomputed at the call site in `Board.clearRow`). -/
def Tetromino.clearRow (t : Tetromino) (boardGridRow : Int) : Tetromino :=
  { t with blockBoardCoords := clearRowCoords boardGridRow t.blockBoardCoords }

/-- Python `Board.STARTING_ZONE_HEIGHT`. -/
def STARTING_ZONE_HEIGHT : Nat := 4

/-- Python `Board.NEXT_X`. -/
def NEXT_X : Int := -5

/-- Python `Board.NEXT_Y`. -/
def NEXT_Y : Int := 20

/-- Class `Board` (screen-placement fields `x`, `y`, `blockSize` are
presentation-only and omitted). -/
structure Board where
  gridWidth : Nat
  gridHeight : Nat
  spawnX : Int
  spawnY : Int
  tetrominos : List Tetromino
  fallingTetromino : Tetromino
  nextTetromino : Tetromino
deriving DecidableEq, Repr

/-- Python `Board.spawnTetromino` with the random type of the fresh
`nextTetromino` externalized as `k`. -/
def Board.spawnTetromino (b : Board) (k : Kind) : Board :=
  { b with
    fallingTetromino := b.nextTetromino.setPosition b.spawnX b.spawnY
    nextTetromino := (Tetromino.new k).setPosition NEXT_X NEXT_Y }

/-- Python `Board.__init__` with the two random types externalized (`k1` for the
initial `nextTetromino`, promoted to the falling piece by the
`spawnTetromino()` call inside the constructor, and `k2` for the
`nextTetromino` that call creates).  `int(gridWidth * 1/3)` is floor
division for the nonnegative widths used. -/
def Board.init (gridWidth gridHeight : Nat) (k1 k2 : Kind) : Board :=
  let b : Board :=
    { gridWidth := gridWidth
      gridHeight := gridHeight
      spawnX := ((gridWidth / 3 : Nat) : Int)
      spawnY := (gridHeight : Int)
      tetrominos := []
      fallingTetromino := Tetromino.new k1
      nextTetromino := Tetromino.new k1 }
  { b.spawnTetromino k2 with tetrominos := [] }

/-- The list `nonFallingBlockCoords` built at the top of
`Board.isValidPosition` and `Board.findFullRows`: all block coords of the
settled tetrominos, concatenated. -/
def Board.nonFallingBlockCoords (b : Board) : List (Int × Int) :=
  (b.tetrominos.map Tetromino.blockBoardCoords).flatten

/-- Python `Board.isValidPosition`: `False` iff some block of the falling
tetromino is out of bounds (`col < 0`, `col ≥ gridWidth` or `row < 0`) or
overlaps a settled block. -/
def Board.isValidPosition (b : Board) : Bool :=
  b.fallingTetromino.blockBoardCoords.all fun c =>
    !(decide (c.1 < 0) || decide (c.1 ≥ (b.gridWidth : Int)) || decide (c.2 < 0)
      || decide (c ∈ b.nonFallingBlockCoords))

/-- Python `Board.findFullRows`, total form: the rows `0 ≤ r < gridHeight + 4`
whose settled-block count equals `gridWidth`, in increasing row order
(the dict `rowCounts` is keyed by exactly these rows in insertion order).
This matches the source whenever every settled block's row is one of the
pre-initialized keys; `findFullRowsD` models the `KeyError` case. -/
def Board.findFullRows (b : Board) : List Int :=
  (List.range (b.gridHeight + STARTING_ZONE_HEIGHT)).filterMap fun (i : Nat) =>
    if b.nonFallingBlockCoords.countP (fun c => c.2 == ((i : Nat) : Int)) = b.gridWidth
    then some ((i : Nat) : Int) else none

/-- One `rowCounts[coord[1]] += 1` step on the dict, modelled as a partial
map: `none` is the `KeyError` raised when the row is not a key. -/
def bumpRow (counts : Int → Option Nat) (r : Int) : Option (Int → Option Nat) :=
  match counts r with
  | none => none
  | some v => some fun r' => if r' = r then some (v + 1) else counts r'

/-- Python `Board.findFullRows`, dict-faithful form: the `rowCounts` dict starts
with keys `0 .. gridHeight + 4 - 1` all mapped to `0`; each settled block
increments its row's entry, raising `KeyError` (`none`) if the row is not
a key; finally the keys with count `gridWidth` are collected in key
(insertion) order. -/
def Board.findFullRowsD (b : Board) : Option (List Int) :=
  let m := b.gridHeight + STARTING_ZONE_HEIGHT
  let init : Int → Option Nat := fun r => if 0 ≤ r ∧ r < (m : Int) then some 0 else none
  (b.nonFallingBlockCoords.foldlM (fun counts c => bumpRow counts c.2) init).map
    fun counts => (List.range m).filterMap fun (i : Nat) =>
      if counts ((i : Nat) : Int) = some b.gridWidth then some ((i : Nat) : Int) else none

/-- Python `Board.clearRow`: clear the row in every settled tetromino, keeping
only those with blocks remaining (`tetromino.clearRow` returns
`len(blockBoardCoords) > 0`). -/
def Board.clearRow (b : Board) (gridRow : Int) : Board :=
  { b with
    tetrominos :=
      (b.tetrominos.map fun t => t.clearRow gridRow).filter fun t =>
        decide (0 < t.blockBoardCoords.length) }

/-- Insert into a descending-sorted list of rows. -/
def insertDesc (x : Int) : List Int → List Int
  | [] => [x]
  | y :: ys => if y ≤ x then x :: y :: ys else y :: insertDesc x ys

/-- Sort rows in descending order (`gridRows.sort(reverse=True)`; a sorted
permutation of an integer list is unique, so insertion sort agrees with
the source's sort). -/
def sortDesc (rows : List Int) : List Int :=
  match rows with
  | [] => []
  | x :: xs => insertDesc x (sortDesc xs)

/-- Python `Board.clearRows`: clear the given rows in descending order. -/
def Board.clearRows (b : Board) (gridRows : List Int) : Board :=
  (sortDesc gridRows).foldl Board.clearRow b

/-- Python `Board.commandFallingTetromino`: apply the command optimistically and
undo it if the resulting position is invalid. -/
def Board.commandFallingTetromino (b : Board) (c : Input) : Board :=
  let b1 := { b with fallingTetromino := b.fallingTetromino.command c }
  if b1.isValidPosition then b1
  else { b1 with fallingTetromino := b1.fallingTetromino.undoCommand c }

/-- Python `Board.isInStartZone`: some block of the tetromino has row
`≥ gridHeight`. -/
def Board.isInStartZone (b : Board) (t : Tetromino) : Bool :=
  t.blockBoardCoords.any fun c => decide ((b.gridHeight : Int) ≤ c.2)

/-- Python `Board.updateTick` with the spawned type externalized as `k`; returns
the new board together with `(numClearedRows, gameLost)`.  The Python
`fallingTetromino` field and the list entry appended to `tetrominos` alias
the same object, so after `clearRows` the field holds the piece with the
cleared rows applied (`tCleared`); row clearing of a piece already removed
from the list is a no-op on its empty coords, so folding every cleared row
over the piece reproduces the in-place mutations exactly. -/
def Board.updateTick (b : Board) (k : Kind) : Board × Nat × Bool :=
  let b1 := { b with fallingTetromino := b.fallingTetromino.command .MOVE_DOWN }
  if b1.isValidPosition then (b1, 0, false)
  else
    let t := b1.fallingTetromino.undoCommand .MOVE_DOWN
    let b2 := { b1 with fallingTetromino := t, tetrominos := b1.tetrominos ++ [t] }
    let fullRows := b2.findFullRows
    let b3 := b2.clearRows fullRows
    let tCleared := (sortDesc fullRows).foldl Tetromino.clearRow t
    let b4 := { b3 with fallingTetromino := tCleared }
    let gameLost := b4.isInStartZone tCleared
    if gameLost then (b4, fullRows.length, true)
    else (b4.spawnTetromino k, fullRows.length, false)

/-- Class `Game` (the pyglet `infoDisplay` is modelled by its two flag
fields and the displayed rows-cleared number; `tickSpeed` and the `ticker`
are externalized into the `tickDue` argument of `update`; `rowsCleared` is
the instance attribute first created by the assignment inside `update`). -/
structure Game where
  paused : Bool
  lost : Bool
  numRowsCleared : Nat
  board : Board
  rowsCleared : Option Nat
  showPausedLabel : Bool
  showGameoverLabel : Bool
  displayedRowsCleared : Nat
deriving DecidableEq, Repr

/-- Python `Game.__init__` (for a given starting board). -/
def Game.init (board : Board) : Game :=
  { paused := false
    lost := false
    numRowsCleared := 0
    board := board
    rowsCleared := none
    showPausedLabel := false
    showGameoverLabel := false
    displayedRowsCleared := 0 }

/-- Python `Game.addRowsCleared`. -/
def Game.addRowsCleared (g : Game) (rowsCleared : Nat) : Game :=
  let total := g.numRowsCleared + rowsCleared
  { g with numRowsCleared := total, displayedRowsCleared := total }

/-- Python `Game.togglePause`. -/
def Game.togglePause (g : Game) : Game :=
  let p := !g.paused
  { g with paused := p, showPausedLabel := p }

/-- Python `Game.update`, with `self.input.consume()` externalized as `command`
(`none` models Python `None`), `self.ticker.isTick(self.tickSpeed)` as
`tickDue`, and the random type of a spawned tetromino as `k`.  The Python
guard `command and command != Input.TOGGLE_PAUSE` is falsy both for `None`
and for `TOGGLE_PAUSE` (which is the integer 0). -/
def Game.update (g : Game) (command : Option Input) (tickDue : Bool) (k : Kind) : Game :=
  if g.lost then { g with showGameoverLabel := true }
  else
    let g1 := if command = some .TOGGLE_PAUSE then g.togglePause else g
    if !g1.paused && !g1.lost then
      let g2 :=
        match command with
        | some c =>
          if c = .TOGGLE_PAUSE then g1
          else { g1 with board := g1.board.commandFallingTetromino c }
        | none => g1
      if tickDue then
        let r := g2.board.updateTick k
        let g3 := { g2 with board := r.1, rowsCleared := some r.2.1, lost := r.2.2 }
        g3.addRowsCleared r.2.1
      else g2
    else g1

/-- A tetromino whose cached `blockBoardCoords` agree with
`calcBlockBoardCoords` (true of every piece the movement operations touch;
row clearing breaks it for settled remnants). -/
@[reducible]
def Coherent (t : Tetromino) : Prop :=
  t.blockBoardCoords = t.calcBlockBoardCoords

/-- Two tetrominos occupying no common cell. -/
@[reducible]
def CellsDisjoint (t u : Tetromino) : Prop :=
  ∀ c ∈ t.blockBoardCoords, c ∉ u.blockBoardCoords

/-- No two settled tetrominos overlap. -/
@[reducible]
def SettledDisjoint (b : Board) : Prop :=
  b.tetrominos.Pairwise CellsDisjoint

/-- Every settled block lies in the playable field: column in
`[0, gridWidth)` and row in `[0, gridHeight)` (strictly below the start
zone). -/
@[reducible]
def SettledInField (b : Board) : Prop :=
  ∀ t ∈ b.tetrominos, ∀ c ∈ t.blockBoardCoords,
    0 ≤ c.1 ∧ c.1 < (b.gridWidth : Int) ∧ 0 ≤ c.2 ∧ c.2 < (b.gridHeight : Int)

/-- The inductive board invariant: spawn anchor inside the grid, settled
pieces pairwise disjoint and inside the playable field, falling piece
coherent, anchored no higher than the spawn row, and in a valid position,
and the preview piece still in its spawn orientation. -/
@[reducible]
def BoardInv (b : Board) : Prop :=
  0 ≤ b.spawnX ∧ b.spawnX + 3 < (b.gridWidth : Int) ∧ b.spawnY = (b.gridHeight : Int) ∧
  SettledDisjoint b ∧ SettledInField b ∧
  Coherent b.fallingTetromino ∧ b.fallingTetromino.y ≤ (b.gridHeight : Int) ∧
  b.isValidPosition = true

/-- A board whose falling piece rests on the floor: its four blocks fill
columns 0–3 of row 0, so the next down move is invalid. -/
def floorBoard : Board :=
  { Board.init 10 20 .line .square with
    fallingTetromino := (Tetromino.new .line).setPosition 0 (-1) }

/-- The board of the spec scenario for full-row detection: width 10, a
just-settled piece whose 4 blocks lie in row 0 at columns 0–3, and a
settled remnant holding the other 6 blocks of row 0. -/
def fullRowScenario : Board :=
  { gridWidth := 10
    gridHeight := 20
    spawnX := 3
    spawnY := 20
    tetrominos :=
      [{ x := 0, y := -1, tetrominoType := .line, orientation := .RIGHT,
         blockBoardCoords := [(0, 0), (1, 0), (2, 0), (3, 0)] },
       { x := 4, y := 0, tetrominoType := .square, orientation := .RIGHT,
         blockBoardCoords := [(4, 0), (5, 0), (6, 0), (7, 0), (8, 0), (9, 0)] }]
    fallingTetromino := Tetromino.new .tshape
    nextTetromino := Tetromino.new .square }

end Tetris

namespace Tetris

theorem localBlockCoords_bounds (k : Kind) (o : Orientation) :
    ∀ c ∈ localBlockCoords k o, 0 ≤ c.1 ∧ c.1 ≤ 3 ∧ 0 ≤ c.2 ∧ c.2 ≤ 3 := by
  cases k <;> cases o <;> decide

theorem localBlockCoords_nodup (k : Kind) (o : Orientation) :
    (localBlockCoords k o).Nodup := by
  cases k <;> cases o <;> decide

theorem localBlockCoords_length (k : Kind) (o : Orientation) :
    (localBlockCoords k o).length = 4 := by
  cases k <;> cases o <;> rfl

theorem calc_cells_bounds (t : Tetromino) :
    ∀ c ∈ t.calcBlockBoardCoords, t.x ≤ c.1 ∧ c.1 ≤ t.x + 3 ∧ t.y ≤ c.2 ∧ c.2 ≤ t.y + 3 := by
  intro c hc
  simp only [Tetromino.calcBlockBoardCoords, List.mem_map] at hc
  obtain ⟨a, ha, rfl⟩ := hc
  have h := localBlockCoords_bounds _ _ _ ha
  dsimp only
  omega

theorem cw_cw_cw_cw (o : Orientation) :
    clockwiseRotation (clockwiseRotation (clockwiseRotation (clockwiseRotation o))) = o := by
  cases o <;> rfl

theorem tetromino_eta (t : Tetromino) :
    ({ t with blockBoardCoords := t.blockBoardCoords } : Tetromino) = t := rfl

theorem moveDown_moveUp (t : Tetromino) :
    t.moveDown.moveUp = { t with blockBoardCoords := t.calcBlockBoardCoords } := by
  have h : t.y - 1 + 1 = t.y := by ring
  simp [Tetromino.moveDown, Tetromino.moveUp, Tetromino.calcBlockBoardCoords, h]

theorem moveUp_moveDown (t : Tetromino) :
    t.moveUp.moveDown = { t with blockBoardCoords := t.calcBlockBoardCoords } := by
  have h : t.y + 1 - 1 = t.y := by ring
  simp [Tetromino.moveDown, Tetromino.moveUp, Tetromino.calcBlockBoardCoords, h]

theorem moveLeft_moveRight (t : Tetromino) :
    t.moveLeft.moveRight = { t with blockBoardCoords := t.calcBlockBoardCoords } := by
  have h : t.x - 1 + 1 = t.x := by ring
  simp [Tetromino.moveLeft, Tetromino.moveRight, Tetromino.calcBlockBoardCoords, h]

theorem moveRight_moveLeft (t : Tetromino) :
    t.moveRight.moveLeft = { t with blockBoardCoords := t.calcBlockBoardCoords } := by
  have h : t.x + 1 - 1 = t.x := by ring
  simp [Tetromino.moveLeft, Tetromino.moveRight, Tetromino.calcBlockBoardCoords, h]

theorem rotate_cw_ccw (t : Tetromino) :
    t.rotateClockwise.rotateCounterclockwise
      = { t with blockBoardCoords := t.calcBlockBoardCoords } := by
  simp [Tetromino.rotateClockwise, Tetromino.rotateCounterclockwise,
    Tetromino.calcBlockBoardCoords, cw_cw_cw_cw]

theorem roundtrip_core (t : Tetromino) (c : Input) (h : c ≠ .TOGGLE_PAUSE) :
    (t.command c).undoCommand c = { t with blockBoardCoords := t.calcBlockBoardCoords } := by
  cases c with
  | TOGGLE_PAUSE => exact absurd rfl h
  | MOVE_DOWN => exact moveDown_moveUp t
  | MOVE_LEFT => exact moveLeft_moveRight t
  | MOVE_RIGHT => exact moveRight_moveLeft t
  | ROTATE_CLOCKWISE => exact rotate_cw_ccw t

theorem roundtrip_coherent (t : Tetromino) (hc : Coherent t) (c : Input) :
    (t.command c).undoCommand c = t := by
  cases c with
  | TOGGLE_PAUSE => rfl
  | MOVE_DOWN => rw [Tetromino.command, Tetromino.undoCommand, moveDown_moveUp, ← hc]
  | MOVE_LEFT => rw [Tetromino.command, Tetromino.undoCommand, moveLeft_moveRight, ← hc]
  | MOVE_RIGHT => rw [Tetromino.command, Tetromino.undoCommand, moveRight_moveLeft, ← hc]
  | ROTATE_CLOCKWISE => rw [Tetromino.command, Tetromino.undoCommand, rotate_cw_ccw, ← hc]

theorem isValid_iff (b : Board) :
    b.isValidPosition = true ↔
      ∀ c ∈ b.fallingTetromino.blockBoardCoords,
        0 ≤ c.1 ∧ c.1 < (b.gridWidth : Int) ∧ 0 ≤ c.2 ∧
          ∀ t ∈ b.tetrominos, c ∉ t.blockBoardCoords := by
  simp only [Board.isValidPosition, List.all_eq_true, Bool.not_eq_true', Bool.or_eq_false_iff,
    decide_eq_false_iff_not, not_lt, not_le, Board.nonFallingBlockCoords, List.mem_flatten,
    List.mem_map, not_exists, not_and]
  constructor
  · intro h c hc
    obtain ⟨⟨⟨h1, h2⟩, h3⟩, h4⟩ := h c hc
    refine ⟨h1, h2, h3, fun t ht hmem => ?_⟩
    exact h4 t.blockBoardCoords ⟨t, ht, rfl⟩ hmem
  · intro h c hc
    obtain ⟨h1, h2, h3, h4⟩ := h c hc
    refine ⟨⟨⟨h1, h2⟩, h3⟩, fun l hl hmem => ?_⟩
    obtain ⟨t, ht, rfl⟩ := hl
    exact h4 t ht hmem

theorem isInStartZone_iff (b : Board) (t : Tetromino) :
    b.isInStartZone t = true ↔ ∃ c ∈ t.blockBoardCoords, (b.gridHeight : Int) ≤ c.2 := by
  simp [Board.isInStartZone]

end Tetris

namespace Tetris

theorem nodup_translate (l : List (Int × Int)) (x y : Int) (h : l.Nodup) :
    (l.map fun c => (c.1 + x, c.2 + y)).Nodup := by
  refine h.map ?_
  intro a b hab
  simp only [Prod.mk.injEq] at hab
  exact Prod.ext (by omega) (by omega)

/-- C9: every tetromino, for every kind, orientation and anchor, occupies
exactly 4 distinct cells. -/
theorem tetromino_four_distinct_cells (t : Tetromino) :
    t.calcBlockBoardCoords.length = 4 ∧ t.calcBlockBoardCoords.Nodup := by
  constructor
  · simp [Tetromino.calcBlockBoardCoords, localBlockCoords_length]
  · exact nodup_translate _ _ _ (localBlockCoords_nodup _ _)

/-- C4: applying a command and then its undo restores the anchor and the
orientation for every command; for the four move/rotate commands the
round trip is exactly the identity up to recomputing the cached cells, so
on a coherent piece it is the exact identity; undoing a clockwise
rotation is `rotateCounterclockwise`, which equals three clockwise
steps. -/
theorem command_undo_exact :
    (∀ (t : Tetromino) (c : Input),
      ((t.command c).undoCommand c).x = t.x ∧
      ((t.command c).undoCommand c).y = t.y ∧
      ((t.command c).undoCommand c).orientation = t.orientation) ∧
    (∀ (t : Tetromino) (c : Input), c ≠ .TOGGLE_PAUSE →
      (t.command c).undoCommand c
        = { t with blockBoardCoords := t.calcBlockBoardCoords }) ∧
    (∀ t : Tetromino, Coherent t → ∀ c : Input, (t.command c).undoCommand c = t) ∧
    (∀ t : Tetromino,
      (t.command .ROTATE_CLOCKWISE).undoCommand .ROTATE_CLOCKWISE
        = t.rotateClockwise.rotateCounterclockwise) ∧
    (∀ t : Tetromino,
      t.rotateCounterclockwise = t.rotateClockwise.rotateClockwise.rotateClockwise) := by
  refine ⟨?_, roundtrip_core, roundtrip_coherent, fun t => rfl, ?_⟩
  · intro t c
    cases c with
    | TOGGLE_PAUSE => exact ⟨rfl, rfl, rfl⟩
    | MOVE_DOWN => rw [roundtrip_core t _ (by simp)]; exact ⟨rfl, rfl, rfl⟩
    | MOVE_LEFT => rw [roundtrip_core t _ (by simp)]; exact ⟨rfl, rfl, rfl⟩
    | MOVE_RIGHT => rw [roundtrip_core t _ (by simp)]; exact ⟨rfl, rfl, rfl⟩
    | ROTATE_CLOCKWISE => rw [roundtrip_core t _ (by simp)]; exact ⟨rfl, rfl, rfl⟩
  · intro t
    simp [Tetromino.rotateClockwise, Tetromino.rotateCounterclockwise,
      Tetromino.calcBlockBoardCoords]

theorem command_undo_exact_witness :
    ((Input.MOVE_LEFT : Input) ≠ .TOGGLE_PAUSE ∧
      ((Tetromino.new .line).command .MOVE_LEFT).undoCommand .MOVE_LEFT
        = { Tetromino.new .line with
            blockBoardCoords := (Tetromino.new .line).calcBlockBoardCoords }) ∧
    (Coherent (Tetromino.new .square) ∧
      ((Tetromino.new .square).command .ROTATE_CLOCKWISE).undoCommand .ROTATE_CLOCKWISE
        = Tetromino.new .square) :=
  ⟨⟨by decide, command_undo_exact.2.1 _ _ (by decide)⟩,
   ⟨by decide, command_undo_exact.2.2.1 _ (by decide) _⟩⟩

/-- C2: `isValidPosition` is true iff every occupied cell of the falling
piece has `0 ≤ col < gridWidth` and `0 ≤ row` (no upper bound on the row)
and coincides with no cell of any settled piece. -/
theorem isValidPosition_spec (b : Board) :
    b.isValidPosition = true ↔
      ∀ c ∈ b.fallingTetromino.blockBoardCoords,
        0 ≤ c.1 ∧ c.1 < (b.gridWidth : Int) ∧ 0 ≤ c.2 ∧
          ∀ t ∈ b.tetrominos, c ∉ t.blockBoardCoords :=
  isValid_iff b

/-- C5: `commandFallingTetromino` never touches the settled pieces, the
preview piece or the grid dimensions; it applies the command without
pre-validation, keeping the moved piece exactly when the new position is
valid, and rolling a coherent falling piece back to exactly its previous
state when the new position is invalid. -/
theorem commandFalling_atomic :
    (∀ (b : Board) (c : Input),
      (b.commandFallingTetromino c).tetrominos = b.tetrominos ∧
      (b.commandFallingTetromino c).nextTetromino = b.nextTetromino ∧
      (b.commandFallingTetromino c).gridWidth = b.gridWidth ∧
      (b.commandFallingTetromino c).gridHeight = b.gridHeight) ∧
    (∀ (b : Board) (c : Input),
      ({ b with fallingTetromino := b.fallingTetromino.command c } : Board).isValidPosition
          = true →
      b.commandFallingTetromino c
        = { b with fallingTetromino := b.fallingTetromino.command c }) ∧
    (∀ (b : Board) (c : Input), Coherent b.fallingTetromino →
      ({ b with fallingTetromino := b.fallingTetromino.command c } : Board).isValidPosition
          = false →
      b.commandFallingTetromino c = b) := by
  refine ⟨?_, ?_, ?_⟩
  · intro b c
    simp only [Board.commandFallingTetromino]
    split <;> exact ⟨rfl, rfl, rfl, rfl⟩
  · intro b c h
    simp only [Board.commandFallingTetromino, h, if_true]
  · intro b c hc h
    simp only [Board.commandFallingTetromino, h, Bool.false_eq_true, if_false]
    rw [roundtrip_coherent _ hc]

theorem commandFalling_atomic_witness :
    (Coherent floorBoard.fallingTetromino ∧
      ({ floorBoard with
          fallingTetromino := floorBoard.fallingTetromino.command .MOVE_DOWN } :
          Board).isValidPosition = false ∧
      floorBoard.commandFallingTetromino .MOVE_DOWN = floorBoard) ∧
    (({ Board.init 10 20 .line .square with
        fallingTetromino :=
          (Board.init 10 20 .line .square).fallingTetromino.command .MOVE_LEFT } :
        Board).isValidPosition = true ∧
      (Board.init 10 20 .line .square).commandFallingTetromino .MOVE_LEFT
        = { Board.init 10 20 .line .square with
            fallingTetromino :=
              (Board.init 10 20 .line .square).fallingTetromino.command .MOVE_LEFT }) :=
  ⟨⟨by decide, by decide, commandFalling_atomic.2.2 _ _ (by decide) (by decide)⟩,
   ⟨by decide, commandFalling_atomic.2.1 _ _ (by decide)⟩⟩

/-- C10: once `lost` is true, `update` only raises the game-over display
flag; the board, both counters, the paused flag and the lost flag itself
are unchanged, whatever input, tick signal or random piece arrives. -/
theorem update_after_loss (g : Game) (command : Option Input) (tickDue : Bool) (k : Kind)
    (h : g.lost = true) :
    (g.update command tickDue k).board = g.board ∧
    (g.update command tickDue k).numRowsCleared = g.numRowsCleared ∧
    (g.update command tickDue k).rowsCleared = g.rowsCleared ∧
    (g.update command tickDue k).displayedRowsCleared = g.displayedRowsCleared ∧
    (g.update command tickDue k).paused = g.paused ∧
    (g.update command tickDue k).showPausedLabel = g.showPausedLabel ∧
    (g.update command tickDue k).lost = true ∧
    g.update command tickDue k = { g with showGameoverLabel := true } := by
  simp [Game.update, h]

theorem update_after_loss_witness :
    ({ Game.init (Board.init 10 20 .line .square) with lost := true }.lost = true) ∧
    { Game.init (Board.init 10 20 .line .square) with lost := true }.update
        (some .MOVE_LEFT) true .tshape
      = { { Game.init (Board.init 10 20 .line .square) with lost := true } with
          showGameoverLabel := true } :=
  ⟨rfl, (update_after_loss _ (some .MOVE_LEFT) true .tshape rfl).2.2.2.2.2.2.2⟩

end Tetris

namespace Tetris

theorem insertDesc_perm (x : Int) (l : List Int) : (insertDesc x l).Perm (x :: l) := by
  induction l with
  | nil => exact List.Perm.refl _
  | cons y ys ih =>
    simp only [insertDesc]
    split
    · exact List.Perm.refl _
    · exact (ih.cons y).trans (List.Perm.swap x y ys)

theorem sortDesc_perm (l : List Int) : (sortDesc l).Perm l := by
  induction l with
  | nil => exact List.Perm.refl _
  | cons x xs ih => exact (insertDesc_perm x (sortDesc xs)).trans (ih.cons x)

theorem insertDesc_sorted (x : Int) (l : List Int) (h : l.Sorted (· ≥ ·)) :
    (insertDesc x l).Sorted (· ≥ ·) := by
  induction l with
  | nil => simp [insertDesc]
  | cons y ys ih =>
    rw [List.sorted_cons] at h
    simp only [insertDesc]
    split
    next hle =>
      rw [List.sorted_cons]
      refine ⟨?_, by rw [List.sorted_cons]; exact h⟩
      intro b hb
      rcases List.mem_cons.mp hb with rfl | hb
      · exact hle
      · exact le_trans (h.1 b hb) hle
    next hgt =>
      rw [List.sorted_cons]
      refine ⟨?_, ih h.2⟩
      intro b hb
      have hb' : b ∈ x :: ys := (insertDesc_perm x ys).mem_iff.mp hb
      rcases List.mem_cons.mp hb' with rfl | hb'
      · omega
      · exact h.1 b hb'

theorem sortDesc_sorted (l : List Int) : (sortDesc l).Sorted (· ≥ ·) := by
  induction l with
  | nil => simp [sortDesc]
  | cons x xs ih => exact insertDesc_sorted x (sortDesc xs) ih

theorem clearRowCoords_eq (r : Int) (l : List (Int × Int)) :
    clearRowCoords r l = l.filterMap fun c =>
      if c.2 = r then none
      else if r < c.2 then some (c.1, c.2 - 1)
      else some c := by
  induction l with
  | nil => rfl
  | cons c cs ih =>
    rcases lt_trichotomy c.2 r with h | h | h
    · simp only [clearRowCoords, if_neg (by omega : ¬ c.2 > r), if_pos h, List.filterMap_cons,
        if_neg (by omega : ¬ c.2 = r), if_neg (by omega : ¬ r < c.2), ih]
    · simp only [clearRowCoords, if_neg (by omega : ¬ c.2 > r), if_neg (by omega : ¬ c.2 < r),
        List.filterMap_cons, if_pos h, ih]
    · simp only [clearRowCoords, if_pos (by omega : c.2 > r), List.filterMap_cons,
        if_neg (by omega : ¬ c.2 = r), if_pos h, ih]

/-- C3: per piece, clearing a row drops the cells on that row, shifts the
cells above it down by one and keeps the cells below it; the board-level
`clearRow` applies this to every settled piece and removes the pieces
left without cells; `clearRows` applies `clearRow` once per given row,
in descending row order. -/
theorem clearRows_spec :
    (∀ (t : Tetromino) (r : Int),
      (t.clearRow r).blockBoardCoords = t.blockBoardCoords.filterMap fun c =>
        if c.2 = r then none
        else if r < c.2 then some (c.1, c.2 - 1)
        else some c) ∧
    (∀ (b : Board) (r : Int),
      (b.clearRow r).tetrominos
        = (b.tetrominos.map fun t => t.clearRow r).filter
            fun t => decide (t.blockBoardCoords ≠ [])) ∧
    (∀ (b : Board) (rows : List Int), ∃ l : List Int,
      l.Perm rows ∧ l.Sorted (· ≥ ·) ∧ b.clearRows rows = l.foldl Board.clearRow b) := by
  refine ⟨fun t r => clearRowCoords_eq r t.blockBoardCoords, ?_, ?_⟩
  · intro b r
    simp only [Board.clearRow]
    refine List.filter_congr ?_
    intro t ht
    rcases t.blockBoardCoords with _ | ⟨c, cs⟩ <;> simp
  · intro b rows
    exact ⟨sortDesc rows, sortDesc_perm rows, sortDesc_sorted rows, rfl⟩

/-- C6: `findFullRows` returns exactly the rows `r` with
`0 ≤ r < gridHeight + 4` whose settled-cell count equals `gridWidth`; on
the spec's width-10 scenario with row 0 fully occupied by a just-settled
piece's 4 cells plus 6 pre-settled cells it returns `[0]`. -/
theorem findFullRows_spec :
    (∀ (b : Board) (r : Int),
      r ∈ b.findFullRows ↔
        0 ≤ r ∧ r < ((b.gridHeight + STARTING_ZONE_HEIGHT : Nat) : Int) ∧
        b.nonFallingBlockCoords.countP (fun c => c.2 == r) = b.gridWidth) ∧
    fullRowScenario.findFullRows = [0] := by
  constructor
  · intro b r
    rw [Board.findFullRows, List.mem_filterMap]
    constructor
    · rintro ⟨i, hi, hif⟩
      rw [List.mem_range] at hi
      split at hif
      next hcount =>
        obtain rfl : (i : Int) = r := Option.some.inj hif
        exact ⟨Int.natCast_nonneg i, by exact_mod_cast hi, hcount⟩
      next => exact absurd hif (by simp)
    · rintro ⟨h0, hm, hc⟩
      have hm' : r.toNat < b.gridHeight + STARTING_ZONE_HEIGHT := by
        have : ((b.gridHeight + STARTING_ZONE_HEIGHT : Nat) : Int)
            = (b.gridHeight : Int) + (STARTING_ZONE_HEIGHT : Int) := by push_cast; ring
        rw [this] at hm
        omega
      refine ⟨r.toNat, List.mem_range.mpr hm', ?_⟩
      rw [Int.toNat_of_nonneg h0, if_pos hc]
  · decide

end Tetris

namespace Tetris

theorem foldl_clearRow_gridWidth (l : List Int) (b : Board) :
    (l.foldl Board.clearRow b).gridWidth = b.gridWidth := by
  induction l generalizing b with
  | nil => rfl
  | cons r rs ih => exact ih (b.clearRow r)

theorem foldl_clearRow_gridHeight (l : List Int) (b : Board) :
    (l.foldl Board.clearRow b).gridHeight = b.gridHeight := by
  induction l generalizing b with
  | nil => rfl
  | cons r rs ih => exact ih (b.clearRow r)

theorem foldl_clearRow_spawnX (l : List Int) (b : Board) :
    (l.foldl Board.clearRow b).spawnX = b.spawnX := by
  induction l generalizing b with
  | nil => rfl
  | cons r rs ih => exact ih (b.clearRow r)

theorem foldl_clearRow_spawnY (l : List Int) (b : Board) :
    (l.foldl Board.clearRow b).spawnY = b.spawnY := by
  induction l generalizing b with
  | nil => rfl
  | cons r rs ih => exact ih (b.clearRow r)

theorem foldl_clearRow_falling (l : List Int) (b : Board) :
    (l.foldl Board.clearRow b).fallingTetromino = b.fallingTetromino := by
  induction l generalizing b with
  | nil => rfl
  | cons r rs ih => exact ih (b.clearRow r)

theorem foldl_clearRow_next (l : List Int) (b : Board) :
    (l.foldl Board.clearRow b).nextTetromino = b.nextTetromino := by
  induction l generalizing b with
  | nil => rfl
  | cons r rs ih => exact ih (b.clearRow r)

theorem isInStartZone_eq_decide (b : Board) (t : Tetromino) :
    b.isInStartZone t = decide (∃ c ∈ t.blockBoardCoords, (b.gridHeight : Int) ≤ c.2) := by
  rw [Bool.eq_iff_iff]
  simp [Board.isInStartZone]

theorem updateTick_eq_valid (b : Board) (k : Kind)
    (h : ({ b with fallingTetromino := b.fallingTetromino.moveDown } : Board).isValidPosition
      = true) :
    b.updateTick k = ({ b with fallingTetromino := b.fallingTetromino.moveDown }, 0, false) := by
  simp only [Board.updateTick, Tetromino.command, h, if_true]

theorem updateTick_eq_invalid (b : Board) (k : Kind)
    (h : ({ b with fallingTetromino := b.fallingTetromino.moveDown } : Board).isValidPosition
      = false) :
    b.updateTick k =
      (let t := { b.fallingTetromino with
                  blockBoardCoords := b.fallingTetromino.calcBlockBoardCoords };
       let committed : Board :=
         { b with fallingTetromino := t, tetrominos := b.tetrominos ++ [t] };
       let fullRows := committed.findFullRows;
       let cleared := committed.clearRows fullRows;
       let tC := (sortDesc fullRows).foldl Tetromino.clearRow t;
       let lost := decide (∃ c ∈ tC.blockBoardCoords, (b.gridHeight : Int) ≤ c.2);
       (if lost then { cleared with fallingTetromino := tC }
        else ({ cleared with fallingTetromino := tC }).spawnTetromino k,
        fullRows.length, lost)) := by
  simp only [Board.updateTick, Tetromino.command, Tetromino.undoCommand, h,
    Bool.false_eq_true, if_false, moveDown_moveUp, isInStartZone_eq_decide,
    Board.clearRows, foldl_clearRow_gridHeight]
  split
  next hc => simp [hc]
  next hc => simp [hc]

/-- C1: `updateTick` attempts the down move; when the result is valid the
tick changes nothing but the falling piece, returning `(0, false)`; when
invalid it rolls the move back, commits the piece into the settled
collection, clears the full rows, reports loss iff a cell of the
just-settled (and just-cleared) piece still has row `≥ gridHeight`,
spawns the next piece iff not lost, and returns the number of cleared
rows with the lost flag. -/
theorem updateTick_spec (b : Board) (k : Kind) :
    (({ b with fallingTetromino := b.fallingTetromino.moveDown } : Board).isValidPosition
        = true →
      b.updateTick k
        = ({ b with fallingTetromino := b.fallingTetromino.moveDown }, 0, false)) ∧
    (({ b with fallingTetromino := b.fallingTetromino.moveDown } : Board).isValidPosition
        = false →
      b.updateTick k =
        (let t := { b.fallingTetromino with
                    blockBoardCoords := b.fallingTetromino.calcBlockBoardCoords };
         let committed : Board :=
           { b with fallingTetromino := t, tetrominos := b.tetrominos ++ [t] };
         let fullRows := committed.findFullRows;
         let cleared := committed.clearRows fullRows;
         let tC := (sortDesc fullRows).foldl Tetromino.clearRow t;
         let lost := decide (∃ c ∈ tC.blockBoardCoords, (b.gridHeight : Int) ≤ c.2);
         (if lost then { cleared with fallingTetromino := tC }
          else ({ cleared with fallingTetromino := tC }).spawnTetromino k,
          fullRows.length, lost))) :=
  ⟨updateTick_eq_valid b k, updateTick_eq_invalid b k⟩

end Tetris

namespace Tetris

theorem updateTick_spec_witness :
    (({ Board.init 10 20 .line .square with
        fallingTetromino := (Board.init 10 20 .line .square).fallingTetromino.moveDown } :
        Board).isValidPosition = true ∧
      (Board.init 10 20 .line .square).updateTick .tshape
        = ({ Board.init 10 20 .line .square with
             fallingTetromino := (Board.init 10 20 .line .square).fallingTetromino.moveDown },
           0, false)) ∧
    (({ floorBoard with fallingTetromino := floorBoard.fallingTetromino.moveDown } :
        Board).isValidPosition = false ∧
      floorBoard.updateTick .tshape =
        (let t := { floorBoard.fallingTetromino with
                    blockBoardCoords := floorBoard.fallingTetromino.calcBlockBoardCoords };
         let committed : Board :=
           { floorBoard with fallingTetromino := t, tetrominos := floorBoard.tetrominos ++ [t] };
         let fullRows := committed.findFullRows;
         let cleared := committed.clearRows fullRows;
         let tC := (sortDesc fullRows).foldl Tetromino.clearRow t;
         let lost := decide (∃ c ∈ tC.blockBoardCoords, (floorBoard.gridHeight : Int) ≤ c.2);
         (if lost then { cleared with fallingTetromino := tC }
          else ({ cleared with fallingTetromino := tC }).spawnTetromino .tshape,
          fullRows.length, lost))) :=
  ⟨⟨by decide, (updateTick_spec _ _).1 (by decide)⟩,
   ⟨by decide, (updateTick_spec _ _).2 (by decide)⟩⟩

end Tetris

namespace Tetris

theorem mem_clearRowCoords {r : Int} {l : List (Int × Int)} {p : Int × Int} :
    p ∈ clearRowCoords r l ↔
      ∃ c ∈ l, (r < c.2 ∧ p = (c.1, c.2 - 1)) ∨ (c.2 < r ∧ p = c) := by
  rw [clearRowCoords_eq, List.mem_filterMap]
  constructor
  · rintro ⟨c, hc, hf⟩
    refine ⟨c, hc, ?_⟩
    split at hf
    · exact absurd hf (by simp)
    · split at hf
      next h2 => exact Or.inl ⟨h2, (Option.some.inj hf).symm⟩
      next h1 h2 => exact Or.inr ⟨by omega, (Option.some.inj hf).symm⟩
  · rintro ⟨c, hc, ⟨h1, rfl⟩ | ⟨h1, rfl⟩⟩
    · exact ⟨c, hc, by rw [if_neg (by omega), if_pos h1]⟩
    · exact ⟨p, hc, by rw [if_neg (by omega), if_neg (by omega)]⟩

theorem cellsDisjoint_clearRow {t u : Tetromino} (h : CellsDisjoint t u) (r : Int) :
    CellsDisjoint (t.clearRow r) (u.clearRow r) := by
  intro p hp hq
  simp only [Tetromino.clearRow] at hp hq
  obtain ⟨c, hct, hc⟩ := mem_clearRowCoords.mp hp
  obtain ⟨d, hdu, hd⟩ := mem_clearRowCoords.mp hq
  have hcd : c = d := by
    obtain ⟨cx, cy⟩ := c
    obtain ⟨dx, dy⟩ := d
    obtain ⟨px, py⟩ := p
    rcases hc with ⟨h1, h2⟩ | ⟨h1, h2⟩ <;> rcases hd with ⟨h3, h4⟩ | ⟨h3, h4⟩ <;>
      simp only [Prod.mk.injEq] at h2 h4 ⊢ <;> omega
  subst hcd
  exact h c hct hdu

theorem clearRow_cells_bound {r : Int} (hr : 0 ≤ r) {t : Tetromino} {W B : Int}
    (h : ∀ c ∈ t.blockBoardCoords, 0 ≤ c.1 ∧ c.1 < W ∧ 0 ≤ c.2 ∧ c.2 < B) :
    ∀ c ∈ (t.clearRow r).blockBoardCoords, 0 ≤ c.1 ∧ c.1 < W ∧ 0 ≤ c.2 ∧ c.2 < B := by
  intro p hp
  simp only [Tetromino.clearRow] at hp
  obtain ⟨c, hct, hc⟩ := mem_clearRowCoords.mp hp
  have hb := h c hct
  obtain ⟨cx, cy⟩ := c
  obtain ⟨px, py⟩ := p
  obtain ⟨b1, b2, b3, b4⟩ := hb
  rcases hc with ⟨h1, h2⟩ | ⟨h1, h2⟩ <;> simp only [Prod.mk.injEq] at h2 <;>
    simp only at b1 b2 b3 b4 h1 <;> exact ⟨by omega, by omega, by omega, by omega⟩

theorem foldl_tetromino_clearRow_bound (l : List Int) (hl : ∀ r ∈ l, 0 ≤ r)
    {W B : Int} :
    ∀ t : Tetromino, (∀ c ∈ t.blockBoardCoords, 0 ≤ c.1 ∧ c.1 < W ∧ 0 ≤ c.2 ∧ c.2 < B) →
      ∀ c ∈ (l.foldl Tetromino.clearRow t).blockBoardCoords,
        0 ≤ c.1 ∧ c.1 < W ∧ 0 ≤ c.2 ∧ c.2 < B := by
  induction l with
  | nil => intro t ht; exact ht
  | cons r rs ih =>
    intro t ht
    exact ih (fun s hs => hl s (List.mem_cons_of_mem _ hs))
      (t.clearRow r) (clearRow_cells_bound (hl r (List.mem_cons_self _ _)) ht)

theorem settledDisjoint_clearRow {b : Board} (h : SettledDisjoint b) (r : Int) :
    SettledDisjoint (b.clearRow r) := by
  refine ((h.map _ ?_).sublist (List.filter_sublist _))
  intro t u htu
  exact cellsDisjoint_clearRow htu r

theorem settledDisjoint_foldl (l : List Int) :
    ∀ b : Board, SettledDisjoint b → SettledDisjoint (l.foldl Board.clearRow b) := by
  induction l with
  | nil => intro b h; exact h
  | cons r rs ih => intro b h; exact ih (b.clearRow r) (settledDisjoint_clearRow h r)

theorem mem_foldl_clearRow_tetrominos (l : List Int) :
    ∀ (b : Board) (t' : Tetromino), t' ∈ (l.foldl Board.clearRow b).tetrominos →
      ∃ t ∈ b.tetrominos, t' = l.foldl Tetromino.clearRow t := by
  induction l with
  | nil => intro b t' h; exact ⟨t', h, rfl⟩
  | cons r rs ih =>
    intro b t' h
    obtain ⟨s, hs, rfl⟩ := ih (b.clearRow r) t' h
    have hs' := hs
    simp only [Board.clearRow, List.mem_filter, List.mem_map] at hs'
    obtain ⟨⟨t, ht, rfl⟩, _⟩ := hs'
    exact ⟨t, ht, rfl⟩

theorem mem_findFullRows_iff (b : Board) (r : Int) :
    r ∈ b.findFullRows ↔
      0 ≤ r ∧ r < ((b.gridHeight + STARTING_ZONE_HEIGHT : Nat) : Int) ∧
      b.nonFallingBlockCoords.countP (fun c => c.2 == r) = b.gridWidth := by
  rw [Board.findFullRows, List.mem_filterMap]
  constructor
  · rintro ⟨i, hi, hif⟩
    rw [List.mem_range] at hi
    split at hif
    next hcount =>
      obtain rfl : (i : Int) = r := Option.some.inj hif
      exact ⟨Int.natCast_nonneg i, by exact_mod_cast hi, hcount⟩
    next => exact absurd hif (by simp)
  · rintro ⟨h0, hm, hc⟩
    have hm' : r.toNat < b.gridHeight + STARTING_ZONE_HEIGHT := by
      have hcast : ((b.gridHeight + STARTING_ZONE_HEIGHT : Nat) : Int)
          = (b.gridHeight : Int) + (STARTING_ZONE_HEIGHT : Int) := by push_cast; ring
      rw [hcast] at hm
      omega
    refine ⟨r.toNat, List.mem_range.mpr hm', ?_⟩
    rw [Int.toNat_of_nonneg h0, if_pos hc]

theorem mem_findFullRows_nonneg (b : Board) :
    ∀ r ∈ b.findFullRows, 0 ≤ r :=
  fun r hr => ((mem_findFullRows_iff b r).mp hr).1

end Tetris

namespace Tetris

theorem clearRows_gridWidth (b : Board) (rows : List Int) :
    (b.clearRows rows).gridWidth = b.gridWidth :=
  foldl_clearRow_gridWidth _ _

theorem clearRows_gridHeight (b : Board) (rows : List Int) :
    (b.clearRows rows).gridHeight = b.gridHeight :=
  foldl_clearRow_gridHeight _ _

theorem clearRows_spawnX (b : Board) (rows : List Int) :
    (b.clearRows rows).spawnX = b.spawnX :=
  foldl_clearRow_spawnX _ _

theorem clearRows_spawnY (b : Board) (rows : List Int) :
    (b.clearRows rows).spawnY = b.spawnY :=
  foldl_clearRow_spawnY _ _

theorem clearRows_next (b : Board) (rows : List Int) :
    (b.clearRows rows).nextTetromino = b.nextTetromino :=
  foldl_clearRow_next _ _

theorem setPosition_x (t : Tetromino) (x y : Int) : (t.setPosition x y).x = x := rfl

theorem setPosition_y (t : Tetromino) (x y : Int) : (t.setPosition x y).y = y := rfl

theorem command_coherent (t : Tetromino) (c : Input) (h : Coherent t) :
    Coherent (t.command c) := by
  cases c with
  | TOGGLE_PAUSE => exact h
  | MOVE_DOWN => rfl
  | MOVE_LEFT => rfl
  | MOVE_RIGHT => rfl
  | ROTATE_CLOCKWISE => rfl

theorem command_y_le (t : Tetromino) (c : Input) : (t.command c).y ≤ t.y := by
  cases c <;>
    simp only [Tetromino.command, Tetromino.moveDown, Tetromino.moveUp, Tetromino.moveLeft,
      Tetromino.moveRight, Tetromino.rotateClockwise] <;> omega

theorem falling_cells_bounds (b : Board) (hco : Coherent b.fallingTetromino)
    (hy : b.fallingTetromino.y ≤ (b.gridHeight : Int)) (hv : b.isValidPosition = true) :
    ∀ c ∈ b.fallingTetromino.blockBoardCoords,
      0 ≤ c.1 ∧ c.1 < (b.gridWidth : Int) ∧ 0 ≤ c.2 ∧
        c.2 < (b.gridHeight : Int) + (STARTING_ZONE_HEIGHT : Int) := by
  intro c hc
  have h1 := (isValid_iff b).mp hv c hc
  have h2 := calc_cells_bounds b.fallingTetromino c (by rw [← hco]; exact hc)
  have hz : (STARTING_ZONE_HEIGHT : Int) = 4 := rfl
  obtain ⟨a1, a2, a3, _⟩ := h1
  obtain ⟨_, _, _, b4⟩ := h2
  exact ⟨a1, a2, a3, by omega⟩

theorem spawned_cells_bounds (b : Board) (k : Kind) :
    ∀ c ∈ (b.spawnTetromino k).fallingTetromino.blockBoardCoords,
      b.spawnX ≤ c.1 ∧ c.1 ≤ b.spawnX + 3 ∧ b.spawnY ≤ c.2 ∧ c.2 ≤ b.spawnY + 3 := by
  intro c hc
  exact calc_cells_bounds (b.nextTetromino.setPosition b.spawnX b.spawnY) c hc

theorem inv_init (w h : Nat) (k1 k2 : Kind) (hw : 5 ≤ w) :
    BoardInv (Board.init w h k1 k2) := by
  refine ⟨Int.natCast_nonneg _, ?_, rfl, List.Pairwise.nil, ?_, rfl, le_refl _, ?_⟩
  · show ((w / 3 : Nat) : Int) + 3 < (w : Int)
    omega
  · intro t ht
    exact absurd ht (List.not_mem_nil t)
  · rw [isValid_iff]
    intro c hc
    have hb := calc_cells_bounds
      ((Tetromino.new k1).setPosition ((w / 3 : Nat) : Int) (h : Int)) c hc
    rw [setPosition_x, setPosition_y] at hb
    have hw3 : (0 : Int) ≤ ((w / 3 : Nat) : Int) := Int.natCast_nonneg _
    have hh0 : (0 : Int) ≤ (h : Int) := Int.natCast_nonneg _
    refine ⟨by omega, ?_, by omega, ?_⟩
    · show c.1 < (w : Int)
      omega
    · intro t ht
      exact absurd ht (List.not_mem_nil t)

theorem inv_spawn (b : Board) (k : Kind) (hInv : BoardInv b) :
    BoardInv (b.spawnTetromino k) := by
  obtain ⟨h1, h2, h3, h4, h5, h6, h7, h8⟩ := hInv
  refine ⟨h1, h2, h3, h4, h5, rfl, le_of_eq h3, ?_⟩
  rw [isValid_iff]
  intro c hc
  have hb := spawned_cells_bounds b k c hc
  have hH : (0 : Int) ≤ (b.gridHeight : Int) := Int.natCast_nonneg _
  refine ⟨by omega, ?_, by omega, ?_⟩
  · show c.1 < (b.gridWidth : Int)
    omega
  intro t ht hmem
  have hf := h5 t ht c hmem
  rw [h3] at hb
  omega

theorem inv_command (b : Board) (c : Input) (hInv : BoardInv b) :
    BoardInv (b.commandFallingTetromino c) := by
  obtain ⟨h1, h2, h3, h4, h5, h6, h7, h8⟩ := hInv
  unfold Board.commandFallingTetromino
  dsimp only
  split
  next hvalid =>
    exact ⟨h1, h2, h3, h4, h5, command_coherent _ _ h6, le_trans (command_y_le _ _) h7, hvalid⟩
  next hvalid =>
    show BoardInv { b with fallingTetromino := (b.fallingTetromino.command c).undoCommand c }
    rw [roundtrip_coherent _ h6]
    exact ⟨h1, h2, h3, h4, h5, h6, h7, h8⟩

end Tetris

namespace Tetris

theorem inv_tick (b : Board) (k : Kind) (hInv : BoardInv b)
    (hlost : (b.updateTick k).2.2 = false) :
    BoardInv (b.updateTick k).1 := by
  obtain ⟨h1, h2, h3, h4, h5, h6, h7, h8⟩ := hInv
  by_cases hv : ({ b with fallingTetromino := b.fallingTetromino.moveDown } :
      Board).isValidPosition = true
  · rw [updateTick_eq_valid b k hv]
    exact ⟨h1, h2, h3, h4, h5, command_coherent _ .MOVE_DOWN h6,
      le_trans (command_y_le _ .MOVE_DOWN) h7, hv⟩
  · rw [Bool.not_eq_true] at hv
    rw [updateTick_eq_invalid b k hv] at hlost ⊢
    rw [← h6, tetromino_eta] at hlost ⊢
    dsimp only at hlost ⊢
    -- hlost is now the decide of the start-zone test on the cleared piece
    set Bc : Board :=
      { b with fallingTetromino := b.fallingTetromino,
               tetrominos := b.tetrominos ++ [b.fallingTetromino] } with hBc
    set rows := Bc.findFullRows with hrows
    set Bd := Bc.clearRows rows with hBd
    set tC := (sortDesc rows).foldl Tetromino.clearRow b.fallingTetromino with htC
    simp only [hlost, Bool.false_eq_true, if_false]
    have hnl : ∀ c ∈ tC.blockBoardCoords, c.2 < (b.gridHeight : Int) := by
      intro c hc
      have hne := of_decide_eq_false hlost
      push_neg at hne
      exact hne c hc
    have hrpos : ∀ r ∈ sortDesc rows, 0 ≤ r := fun r hr =>
      mem_findFullRows_nonneg Bc r (hrows ▸ (sortDesc_perm rows).mem_iff.mp hr)
    have hTb := falling_cells_bounds b h6 h7 h8
    have hDc : SettledDisjoint Bc := by
      show (b.tetrominos ++ [b.fallingTetromino]).Pairwise CellsDisjoint
      rw [List.pairwise_append]
      refine ⟨h4, List.pairwise_singleton _ _, ?_⟩
      intro t ht u hu
      rw [List.mem_singleton] at hu
      subst hu
      intro p hp hpf
      exact ((isValid_iff b).mp h8 p hpf).2.2.2 t ht hp
    have hDd : SettledDisjoint Bd := by
      rw [hBd, Board.clearRows]
      exact settledDisjoint_foldl _ _ hDc
    have hmem : ∀ t' ∈ Bd.tetrominos, ∃ s ∈ Bc.tetrominos,
        t' = (sortDesc rows).foldl Tetromino.clearRow s := by
      intro t' ht'
      rw [hBd, Board.clearRows] at ht'
      exact mem_foldl_clearRow_tetrominos _ _ _ ht'
    have hInF : ∀ t' ∈ Bd.tetrominos, ∀ p ∈ t'.blockBoardCoords,
        0 ≤ p.1 ∧ p.1 < (b.gridWidth : Int) ∧ 0 ≤ p.2 ∧ p.2 < (b.gridHeight : Int) := by
      intro t' ht'
      obtain ⟨s, hs, rfl⟩ := hmem t' ht'
      have hs' : s ∈ b.tetrominos ++ [b.fallingTetromino] := hs
      rcases List.mem_append.mp hs' with hsl | hsf
      · exact foldl_tetromino_clearRow_bound _ hrpos s (h5 s hsl)
      · rw [List.mem_singleton] at hsf
        subst hsf
        intro p hp
        have hp' : p ∈ tC.blockBoardCoords := by rw [htC]; exact hp
        have hb4 := foldl_tetromino_clearRow_bound _ hrpos b.fallingTetromino hTb p hp
        exact ⟨hb4.1, hb4.2.1, hb4.2.2.1, hnl p hp'⟩
    have hBdx : Bd.spawnX = b.spawnX := by rw [hBd, clearRows_spawnX]
    have hBdy : Bd.spawnY = b.spawnY := by rw [hBd, clearRows_spawnY]
    have hBcW : Bc.gridWidth = b.gridWidth := by rw [hBc]
    have hBcH : Bc.gridHeight = b.gridHeight := by rw [hBc]
    refine ⟨?_, ?_, ?_, ?_, ?_, rfl, ?_, ?_⟩
    · show 0 ≤ Bd.spawnX
      rw [hBd, clearRows_spawnX]
      exact h1
    · show Bd.spawnX + 3 < (Bd.gridWidth : Int)
      rw [hBd, clearRows_spawnX, clearRows_gridWidth]
      exact h2
    · show Bd.spawnY = (Bd.gridHeight : Int)
      rw [hBd, clearRows_spawnY, clearRows_gridHeight]
      exact h3
    · show Bd.tetrominos.Pairwise CellsDisjoint
      exact hDd
    · intro t' ht' p hp
      have hf := hInF t' ht' p hp
      refine ⟨hf.1, ?_, hf.2.2.1, ?_⟩
      · show p.1 < (Bd.gridWidth : Int)
        rw [hBd, clearRows_gridWidth]
        exact hf.2.1
      · show p.2 < (Bd.gridHeight : Int)
        rw [hBd, clearRows_gridHeight]
        exact hf.2.2.2
    · show Bd.spawnY ≤ (Bd.gridHeight : Int)
      rw [hBd, clearRows_spawnY, clearRows_gridHeight]
      exact le_of_eq h3
    · rw [isValid_iff]
      intro p hp
      have hsp := spawned_cells_bounds ({ Bd with fallingTetromino := tC }) k p hp
      dsimp only at hsp
      rw [hBdx, hBdy] at hsp
      have hH0 : (0 : Int) ≤ (b.gridHeight : Int) := Int.natCast_nonneg _
      refine ⟨by omega, ?_, by omega, ?_⟩
      · show p.1 < (Bd.gridWidth : Int)
        rw [hBd, clearRows_gridWidth, hBcW]
        omega
      · intro t' ht' hmemp
        have hf := hInF t' ht' p hmemp
        omega

end Tetris

namespace Tetris

/-- C7: the board invariant (settled pieces pairwise disjoint inside the
field, falling piece valid) holds after construction (for any board at
least 5 columns wide, covering the game's 10) and is preserved by spawn,
by `commandFallingTetromino` and by every `updateTick` whose lost flag is
false; under the invariant a piece is only committed from a position
`isValidPosition` accepts and the rollback restores the falling piece
exactly; a newly spawned piece lies inside the start zone while all
settled cells lie strictly below it. -/
theorem board_invariant :
    (∀ (w h : Nat) (k1 k2 : Kind), 5 ≤ w → BoardInv (Board.init w h k1 k2)) ∧
    (∀ (b : Board) (k : Kind), BoardInv b → BoardInv (b.spawnTetromino k)) ∧
    (∀ (b : Board) (c : Input), BoardInv b → BoardInv (b.commandFallingTetromino c)) ∧
    (∀ (b : Board) (k : Kind), BoardInv b → (b.updateTick k).2.2 = false →
      BoardInv (b.updateTick k).1) ∧
    (∀ b : Board, BoardInv b →
      b.isValidPosition = true ∧ b.fallingTetromino.moveDown.moveUp = b.fallingTetromino) ∧
    (∀ (b : Board) (k : Kind), BoardInv b →
      ∀ c ∈ (b.spawnTetromino k).fallingTetromino.blockBoardCoords,
        (b.gridHeight : Int) ≤ c.2 ∧
          c.2 < (b.gridHeight : Int) + (STARTING_ZONE_HEIGHT : Int)) ∧
    (∀ b : Board, BoardInv b → ∀ t ∈ b.tetrominos, ∀ c ∈ t.blockBoardCoords,
      c.2 < (b.gridHeight : Int)) := by
  refine ⟨inv_init, inv_spawn, inv_command, inv_tick, ?_, ?_, ?_⟩
  · intro b hInv
    obtain ⟨h1, h2, h3, h4, h5, h6, h7, h8⟩ := hInv
    refine ⟨h8, ?_⟩
    rw [moveDown_moveUp, ← h6, tetromino_eta]
  · intro b k hInv c hc
    obtain ⟨h1, h2, h3, h4, h5, h6, h7, h8⟩ := hInv
    have hb := spawned_cells_bounds b k c hc
    have hz : (STARTING_ZONE_HEIGHT : Int) = 4 := rfl
    constructor <;> omega
  · intro b hInv t ht c hc
    exact (hInv.2.2.2.2.1 t ht c hc).2.2.2

theorem board_invariant_witness :
    (5 ≤ 10 ∧ BoardInv (Board.init 10 20 .line .square)) ∧
    (BoardInv (Board.init 10 20 .line .square) ∧
      BoardInv ((Board.init 10 20 .line .square).commandFallingTetromino .MOVE_LEFT)) ∧
    (((Board.init 10 20 .line .square).updateTick .tshape).2.2 = false ∧
      BoardInv ((Board.init 10 20 .line .square).updateTick .tshape).1) :=
  ⟨⟨by decide, board_invariant.1 10 20 .line .square (by decide)⟩,
   ⟨by decide, board_invariant.2.2.1 _ .MOVE_LEFT (by decide)⟩,
   ⟨by decide, board_invariant.2.2.2.1 _ .tshape (by decide) (by decide)⟩⟩

end Tetris

namespace Tetris

theorem bumpRow_some {g : Int → Option Nat} {r : Int} {v : Nat} (h : g r = some v) :
    bumpRow g r = some fun r' => if r' = r then some (v + 1) else g r' := by
  simp [bumpRow, h]

theorem foldlM_bumpRow (coords : List (Int × Int)) :
    ∀ g : Int → Option Nat, (∀ c ∈ coords, (g c.2).isSome = true) →
      coords.foldlM (fun counts c => bumpRow counts c.2) g
        = some fun r => (g r).map fun v => v + coords.countP fun c => c.2 == r := by
  induction coords with
  | nil =>
    intro g hg
    rw [List.foldlM_nil]
    congr 1
    funext r
    cases h : g r <;> simp [h]
  | cons c cs ih =>
    intro g hg
    obtain ⟨v, hv⟩ := Option.isSome_iff_exists.mp (hg c (List.mem_cons_self _ _))
    rw [List.foldlM_cons, bumpRow_some hv, Option.bind_eq_bind, Option.some_bind]
    rw [ih _ ?_]
    · congr 1
      funext r
      by_cases hr : r = c.2
      · subst hr
        rw [@List.countP_cons_of_pos _ (fun x : Int × Int => x.2 == c.2) c cs (by simp)]
        simp only [hv, eq_self_iff_true, if_true, Option.map_some', Option.some.injEq]
        omega
      · rw [@List.countP_cons_of_neg _ (fun x : Int × Int => x.2 == r) c cs
          (by simp only [beq_iff_eq]; exact fun hcr => hr hcr.symm)]
        simp only [if_neg hr]
    · intro d hd
      have hds := hg d (List.mem_cons_of_mem _ hd)
      by_cases hd2 : d.2 = c.2 <;> simp [hd2, hds]

end Tetris

namespace Tetris

theorem findFullRowsD_eq (b : Board)
    (h : ∀ c ∈ b.nonFallingBlockCoords,
      0 ≤ c.2 ∧ c.2 < ((b.gridHeight + STARTING_ZONE_HEIGHT : Nat) : Int)) :
    b.findFullRowsD = some b.findFullRows := by
  rw [Board.findFullRowsD]
  rw [foldlM_bumpRow _ _ fun c hc => by
    have hx := h c hc
    have hx2 : c.2 < (b.gridHeight : Int) + (STARTING_ZONE_HEIGHT : Int) := by
      have hy := hx.2
      push_cast at hy
      exact hy
    simp [hx.1, hx2]]
  rw [Option.map_some']
  congr 1
  rw [Board.findFullRows]
  refine List.filterMap_congr ?_
  intro i hi
  rw [List.mem_range] at hi
  have h0 : (0 : Int) ≤ (i : Int) := Int.natCast_nonneg i
  have h1 : (i : Int) < ((b.gridHeight + STARTING_ZONE_HEIGHT : Nat) : Int) := by
    exact_mod_cast hi
  simp only [h0, h1, and_self, if_true, Option.map_some', Option.some.injEq, Nat.zero_add,
    eq_self_iff_true, if_pos, true_and]

theorem settled_rows_in_range (b : Board) (hInv : BoardInv b) :
    ∀ c ∈ b.nonFallingBlockCoords,
      0 ≤ c.2 ∧ c.2 < ((b.gridHeight + STARTING_ZONE_HEIGHT : Nat) : Int) := by
  obtain ⟨h1, h2, h3, h4, h5, h6, h7, h8⟩ := hInv
  intro c hc
  rw [Board.nonFallingBlockCoords, List.mem_flatten] at hc
  obtain ⟨l, hl, hcl⟩ := hc
  rw [List.mem_map] at hl
  obtain ⟨t, ht, rfl⟩ := hl
  have hf := h5 t ht c hcl
  have hcast : ((b.gridHeight + STARTING_ZONE_HEIGHT : Nat) : Int)
      = (b.gridHeight : Int) + (STARTING_ZONE_HEIGHT : Int) := by push_cast; ring
  have hz : (STARTING_ZONE_HEIGHT : Int) = 4 := rfl
  rw [hcast]
  omega

theorem committed_rows_in_range (b : Board) (hInv : BoardInv b) :
    ∀ c ∈ ({ b with tetrominos := b.tetrominos ++ [b.fallingTetromino] } :
        Board).nonFallingBlockCoords,
      0 ≤ c.2 ∧ c.2 < ((b.gridHeight + STARTING_ZONE_HEIGHT : Nat) : Int) := by
  intro c hc
  obtain ⟨h1, h2, h3, h4, h5, h6, h7, h8⟩ := hInv
  rw [Board.nonFallingBlockCoords, List.mem_flatten] at hc
  obtain ⟨l, hl, hcl⟩ := hc
  rw [List.mem_map] at hl
  obtain ⟨t, ht, rfl⟩ := hl
  have hcast : ((b.gridHeight + STARTING_ZONE_HEIGHT : Nat) : Int)
      = (b.gridHeight : Int) + (STARTING_ZONE_HEIGHT : Int) := by push_cast; ring
  have hz : (STARTING_ZONE_HEIGHT : Int) = 4 := rfl
  rw [hcast]
  have ht' : t ∈ b.tetrominos ++ [b.fallingTetromino] := ht
  rcases List.mem_append.mp ht' with htl | htf
  · have hf := h5 t htl c hcl
    omega
  · rw [List.mem_singleton] at htf
    subst htf
    have hf := falling_cells_bounds b h6 h7 h8 c hcl
    omega

/-- C8: `isValidPosition` and `updateTick` are total over the embedding,
and on every board satisfying the reachability invariant all settled rows
lie in `[0, gridHeight + 4)` — also after committing the falling piece as
`updateTick` does — so the dict-faithful `findFullRowsD` (whose `none`
models the `KeyError` of `rowCounts[coord[1]] += 1`) always succeeds and
agrees with the total `findFullRows`. -/
theorem advanceTick_rowkey_safety :
    (∀ b : Board,
      (∀ c ∈ b.nonFallingBlockCoords,
        0 ≤ c.2 ∧ c.2 < ((b.gridHeight + STARTING_ZONE_HEIGHT : Nat) : Int)) →
      b.findFullRowsD = some b.findFullRows) ∧
    (∀ b : Board, BoardInv b →
      ∀ c ∈ b.nonFallingBlockCoords,
        0 ≤ c.2 ∧ c.2 < ((b.gridHeight + STARTING_ZONE_HEIGHT : Nat) : Int)) ∧
    (∀ b : Board, BoardInv b →
      ∀ c ∈ ({ b with tetrominos := b.tetrominos ++ [b.fallingTetromino] } :
          Board).nonFallingBlockCoords,
        0 ≤ c.2 ∧ c.2 < ((b.gridHeight + STARTING_ZONE_HEIGHT : Nat) : Int)) ∧
    (∀ b : Board, BoardInv b →
      ({ b with tetrominos := b.tetrominos ++ [b.fallingTetromino] } : Board).findFullRowsD
        = some ({ b with tetrominos := b.tetrominos ++ [b.fallingTetromino] } :
            Board).findFullRows) :=
  ⟨findFullRowsD_eq, settled_rows_in_range, committed_rows_in_range,
   fun b hInv => findFullRowsD_eq _ (committed_rows_in_range b hInv)⟩

theorem advanceTick_rowkey_safety_witness :
    ((∀ c ∈ (Board.init 10 20 .line .square).nonFallingBlockCoords,
        0 ≤ c.2 ∧ c.2 < (((Board.init 10 20 .line .square).gridHeight
          + STARTING_ZONE_HEIGHT : Nat) : Int)) ∧
      (Board.init 10 20 .line .square).findFullRowsD
        = some (Board.init 10 20 .line .square).findFullRows) ∧
    (BoardInv (Board.init 10 20 .line .square) ∧
      ({ Board.init 10 20 .line .square with
         tetrominos := (Board.init 10 20 .line .square).tetrominos
           ++ [(Board.init 10 20 .line .square).fallingTetromino] } : Board).findFullRowsD
        = some ({ Board.init 10 20 .line .square with
                  tetrominos := (Board.init 10 20 .line .square).tetrominos
                    ++ [(Board.init 10 20 .line .square).fallingTetromino] } :
            Board).findFullRows) :=
  ⟨⟨by decide, advanceTick_rowkey_safety.1 _ (by decide)⟩,
   ⟨by decide, advanceTick_rowkey_safety.2.2.2 _ (by decide)⟩⟩

end Tetris
